import Mathlib

/-!
Shallow embedding of the three-card poker decision program
(src/250102080.py.py): card parsing, 3-card hand classification,
hand comparison, and the expected-value decision rule.

Modelling conventions:
* Python floats are modelled as exact rationals (all constants in the
  program are decimal literals, and every comparison in the program has
  a wide margin, so the rational model is faithful).
* Python exceptions are modelled by Option; the catch-all except clause
  of decide_action maps a faulty computation (none) to the action FOLD.
* The outcomes of the 800 random.sample draws are passed explicitly as
  the samples argument of decide_action; the deck construction and the
  uniform-sampling mechanics do not influence any arithmetic below.
-/

namespace Poker

/-- A card token: the characters of the Python 2-character card string. -/
abbrev Token := List Char

/-- The 13 rank symbols in increasing order (the string RANKS in the source). -/
def RANKS : List Char := ['2', '3', '4', '5', '6', '7', '8', '9', 'T', 'J', 'Q', 'K', 'A']

/-- Model of the RANK_VALUE dictionary: index of the rank symbol plus 2;
none models the KeyError raised on an unrecognised rank symbol. -/
def RANK_VALUE (c : Char) : Option ℕ :=
  (RANKS.findIdx? (fun r => r == c)).map (fun i => i + 2)

/-- Model of parse_card: (RANK_VALUE[s[0]], s[1]). none models the
exception raised when the token has fewer than 2 characters or the rank
symbol is unknown. -/
def parse_card (card_str : Token) : Option (ℕ × Char) :=
  match card_str with
  | c0 :: c1 :: _ => (RANK_VALUE c0).map (fun v => (v, c1))
  | _ => none

/-- Model of is_straight_3: sort the rank values ascending; a run of
three consecutive values is a straight with high card the third sorted
value; the set check of r against the wheel set Ace(14), 2, 3 detects the wheel, a straight
with high card 3; otherwise not a straight. none models the IndexError
when fewer than three values are supplied. -/
def is_straight_3 (rank_values : List ℕ) : Option (Bool × ℕ) :=
  match List.insertionSort (· ≤ ·) rank_values with
  | r0 :: r1 :: r2 :: rest =>
      if r0 + 1 = r1 ∧ r1 + 1 = r2 then some (true, r2)
      else if (r0 :: r1 :: r2 :: rest).toFinset = ({14, 2, 3} : Finset ℕ) then some (true, 3)
      else some (false, 0)
  | _ => none

/-- Model of the membership test k in counts.values(), where counts maps
each rank value occurring in rank_values to its number of occurrences. -/
def hasCountVal (rank_values : List ℕ) (k : ℕ) : Bool :=
  rank_values.any (fun v => rank_values.count v == k)

/-- Model of hand_category: parse hole + [table], detect flush
(len(set(suits)) == 1), straight (via is_straight_3) and repeated rank
values, then pick the first matching category by priority. -/
def hand_category (hole : List Token) (table : Token) : Option ℕ :=
  let cards := hole ++ [table]
  (cards.mapM parse_card).bind fun parsed =>
    let rank_values := parsed.map Prod.fst
    let suits := parsed.map Prod.snd
    let flush := suits.toFinset.card == 1
    (is_straight_3 rank_values).bind fun sres =>
      let straight := sres.1
      some (if straight && flush then 5
            else if hasCountVal rank_values 3 then 4
            else if straight then 3
            else if flush then 2
            else if hasCountVal rank_values 2 then 1
            else 0)

/-- Model of the final loop of compare_hands_internal: walk the two
sequences in lockstep (Python zip), the first strictly larger element
deciding the winner; 0.5 once the zipped prefix is exhausted with all
positions equal. -/
def seqCompare : List ℕ → List ℕ → ℚ
  | m :: ms, o :: os =>
      if m > o then 1
      else if o > m then 0
      else seqCompare ms os
  | _, _ => 1/2

/-- Model of compare_hands_internal: compare categories; on equal
categories sort the three rank values of each hand descending, remap a wheel
hand to [3, 2, 1] when the category is 5 or 3, and compare the two
sequences position by position. -/
def compare_hands_internal (my_cards : List Token) (table : Token) (opp_cards : List Token) :
    Option ℚ :=
  (hand_category my_cards table).bind fun my_rank =>
  (hand_category opp_cards table).bind fun opp_rank =>
  if my_rank > opp_rank then some 1
  else if opp_rank > my_rank then some 0
  else
    ((my_cards ++ [table]).mapM parse_card).bind fun myParsed =>
    ((opp_cards ++ [table]).mapM parse_card).bind fun oppParsed =>
    let my_vals := List.insertionSort (· ≥ ·) (myParsed.map Prod.fst)
    let opp_vals := List.insertionSort (· ≥ ·) (oppParsed.map Prod.fst)
    let my_vals2 :=
      if (my_rank = 5 ∨ my_rank = 3) ∧ my_vals.toFinset = ({14, 3, 2} : Finset ℕ) then
        [3, 2, 1] else my_vals
    let opp_vals2 :=
      if (my_rank = 5 ∨ my_rank = 3) ∧ opp_vals.toFinset = ({14, 3, 2} : Finset ℕ) then
        [3, 2, 1] else opp_vals
    some (seqCompare my_vals2 opp_vals2)

/-- Opponent statistics: the three counts read from the
opponent_stats mapping with stats.get(key, 0). -/
structure OppStats where
  fold : ℕ
  call : ℕ
  raise : ℕ

/-- The decision request, after the state.get defaults of the source
have been applied: your_hole (default []), table_card (default the empty
string), opponent_stats, and total_rounds (default 1001). -/
structure GameState where
  your_hole : List Token
  table_card : Token
  opponent_stats : OppStats
  total_rounds : ℤ

/-- Model of decide_action. samples holds the outcomes of the 800
random.sample draws of an opponent hand; a fault in any trial (none from
compare_hands_internal) is absorbed by the catch-all except clause,
which returns FOLD. All float arithmetic is exact rational arithmetic. -/
def decide_action (state : GameState) (samples : List (List Token)) : String :=
  let hole := state.your_hole
  let table := state.table_card
  let stats := state.opponent_stats
  if hole = [] ∨ table = [] then "FOLD"
  else
    match samples.mapM (fun opp_hand => compare_hands_internal hole table opp_hand) with
    | none => "FOLD"
    | some results =>
      let wins : ℚ := results.sum
      let sims : ℚ := 800
      let equity := wins / sims
      if equity < 35/100 then "FOLD"
      else
        let n_fold := stats.fold
        let n_actions := n_fold + stats.call + stats.raise
        let fold_freq : ℚ :=
          if n_actions > 5 then max (5/100) (min (95/100) ((n_fold : ℚ) / (n_actions : ℚ)))
          else 30/100
        let ev_fold : ℚ := -1
        let real_equity := equity
        let ev_call_showdown := real_equity * 2 + (1 - real_equity) * (-2)
        let ev_call := fold_freq * 2 + (1 - fold_freq) * ev_call_showdown
        let ev_raise_showdown := real_equity * 3 + (1 - real_equity) * (-3)
        let ev_raise := fold_freq * 3 + (1 - fold_freq) * ev_raise_showdown
        if ev_raise > ev_call + 1/10 ∧ ev_raise > ev_fold then "RAISE"
        else if ev_call > ev_fold + 1/10 then "CALL"
        else "FOLD"

/-- Model of the output coercion in main: an action outside the three
legal strings is replaced by CALL. -/
def coerce_action (action : String) : String :=
  if action = "FOLD" ∨ action = "CALL" ∨ action = "RAISE" then action else "CALL"

/-- Model of the action produced by main for a decoded state: the
action of the decision engine passed through the output coercion. -/
def main_action (state : GameState) (samples : List (List Token)) : String :=
  coerce_action (decide_action state samples)


/-- Specification-side definition, following the spec wording for the
compare tie-break: the tie-break sequence of a hand is its three rank values
sorted descending, remapped to [3, 2, 1] when the winning category is
Straight Flush (5) or Straight (3) and the rank-value set of the hand is
exactly the wheel set Ace, 3, 2. -/
def tie_break_seq (winningCat : ℕ) (vals : List ℕ) : List ℕ :=
  let s := List.insertionSort (· ≥ ·) vals
  if (winningCat = 5 ∨ winningCat = 3) ∧ s.toFinset = ({14, 3, 2} : Finset ℕ) then [3, 2, 1]
  else s

/-- Specification-side definition, following the spec wording for
compare: the higher category wins outright (1.0 to the winner, 0.0 to
the loser); equal categories are settled by comparing the two tie-break
sequences element by element. -/
def compare_spec (myCat oppCat : ℕ) (myVals oppVals : List ℕ) : ℚ :=
  if myCat > oppCat then 1
  else if oppCat > myCat then 0
  else seqCompare (tie_break_seq myCat myVals) (tie_break_seq myCat oppVals)

lemma finset_triple_eq_wheel_iff (a b c : ℕ) :
    (({a, b, c} : Finset ℕ) = {14, 2, 3}) ↔
      ((a = 14 ∨ a = 2 ∨ a = 3) ∧ (b = 14 ∨ b = 2 ∨ b = 3) ∧ (c = 14 ∨ c = 2 ∨ c = 3) ∧
       (a = 14 ∨ b = 14 ∨ c = 14) ∧ (a = 2 ∨ b = 2 ∨ c = 2) ∧ (a = 3 ∨ b = 3 ∨ c = 3)) := by
  constructor
  · intro h
    have h14 : (14 : ℕ) ∈ ({a, b, c} : Finset ℕ) := by rw [h]; simp
    have h2 : (2 : ℕ) ∈ ({a, b, c} : Finset ℕ) := by rw [h]; simp
    have h3 : (3 : ℕ) ∈ ({a, b, c} : Finset ℕ) := by rw [h]; simp
    have ha : a ∈ ({14, 2, 3} : Finset ℕ) := by rw [← h]; simp
    have hb : b ∈ ({14, 2, 3} : Finset ℕ) := by rw [← h]; simp
    have hc : c ∈ ({14, 2, 3} : Finset ℕ) := by rw [← h]; simp
    simp only [Finset.mem_insert, Finset.mem_singleton] at h14 h2 h3 ha hb hc
    omega
  · rintro ⟨ha, hb, hc, h14, h2, h3⟩
    ext x
    simp only [Finset.mem_insert, Finset.mem_singleton]
    omega

lemma insertionSort_three (a b c : ℕ) :
    List.insertionSort (· ≤ ·) [a, b, c] =
      if b ≤ c then
        (if a ≤ b then [a, b, c] else if a ≤ c then [b, a, c] else [b, c, a])
      else
        (if a ≤ c then [a, c, b] else if a ≤ b then [c, a, b] else [c, b, a]) := by
  simp only [List.insertionSort, List.orderedInsert]
  split_ifs <;> simp_all <;> split_ifs <;> simp_all <;> omega

lemma is_straight_3_arith (l : List ℕ) (x y z : ℕ)
    (h : List.insertionSort (· ≤ ·) l = [x, y, z]) :
    is_straight_3 l =
      if x + 1 = y ∧ y + 1 = z then some (true, z)
      else if x = 2 ∧ y = 3 ∧ z = 14 then some (true, 3)
      else some (false, 0) := by
  have hs : List.Sorted (· ≤ ·) [x, y, z] := h ▸ List.sorted_insertionSort _ l
  have hxy : x ≤ y := by
    have := hs.rel_get_of_lt (a := ⟨0, by simp⟩) (b := ⟨1, by simp⟩) (by simp)
    simpa using this
  have hyz : y ≤ z := by
    have := hs.rel_get_of_lt (a := ⟨1, by simp⟩) (b := ⟨2, by simp⟩) (by simp)
    simpa using this
  unfold is_straight_3
  rw [h]
  simp only [List.toFinset_cons, List.toFinset_nil, insert_emptyc_eq,
    finset_triple_eq_wheel_iff]
  split_ifs <;> simp_all <;> omega

lemma sort_three_spec (a b c : ℕ) :
    List.insertionSort (· ≤ ·) [a, b, c] =
      [min a (min b c), a + b + c - min a (min b c) - max a (max b c), max a (max b c)] := by
  rw [insertionSort_three]
  split_ifs <;> simp <;> omega

lemma is_straight_3_eval (a b c : ℕ) :
    is_straight_3 [a, b, c] =
      if min a (min b c) + 1 = a + b + c - min a (min b c) - max a (max b c) ∧
         (a + b + c - min a (min b c) - max a (max b c)) + 1 = max a (max b c) then
        some (true, max a (max b c))
      else if min a (min b c) = 2 ∧ a + b + c - min a (min b c) - max a (max b c) = 3 ∧
              max a (max b c) = 14 then
        some (true, 3)
      else some (false, 0) :=
  is_straight_3_arith _ _ _ _ (sort_three_spec a b c)

lemma hand_category_eval (c1 c2 t : Token) (v1 v2 v3 : ℕ) (s1 s2 s3 : Char) (str : Bool) (hi : ℕ)
    (h1 : parse_card c1 = some (v1, s1)) (h2 : parse_card c2 = some (v2, s2))
    (h3 : parse_card t = some (v3, s3))
    (hst : is_straight_3 [v1, v2, v3] = some (str, hi)) :
    hand_category [c1, c2] t =
      some (if str && ([s1, s2, s3].toFinset.card == 1) then 5
            else if hasCountVal [v1, v2, v3] 3 then 4
            else if str then 3
            else if [s1, s2, s3].toFinset.card == 1 then 2
            else if hasCountVal [v1, v2, v3] 2 then 1
            else 0) := by
  unfold hand_category
  simp only [List.cons_append, List.nil_append, List.mapM_cons, List.mapM_nil, h1, h2, h3,
    Option.bind_eq_bind, Option.some_bind, Option.pure_def, List.map_cons, List.map_nil, hst]


lemma toFinset_card_one_iff (s1 s2 s3 : Char) :
    ([s1, s2, s3].toFinset.card = 1) ↔ (s1 = s2 ∧ s2 = s3) := by
  constructor
  · intro h
    obtain ⟨x, hx⟩ := Finset.card_eq_one.mp h
    have m1 : s1 ∈ [s1, s2, s3].toFinset := by simp
    have m2 : s2 ∈ [s1, s2, s3].toFinset := by simp
    have m3 : s3 ∈ [s1, s2, s3].toFinset := by simp
    rw [hx, Finset.mem_singleton] at m1 m2 m3
    exact ⟨m1.trans m2.symm, m2.trans m3.symm⟩
  · rintro ⟨rfl, rfl⟩
    simp

lemma hasCountVal_three_iff (v1 v2 v3 : ℕ) :
    hasCountVal [v1, v2, v3] 3 = true ↔ (v1 = v2 ∧ v2 = v3) := by
  unfold hasCountVal
  by_cases h12 : v1 = v2 <;> by_cases h23 : v2 = v3 <;> by_cases h13 : v1 = v3 <;>
    simp_all [List.count_cons] <;> (try omega) <;> split_ifs <;> (try omega) <;> simp

lemma hasCountVal_two_iff (v1 v2 v3 : ℕ) :
    hasCountVal [v1, v2, v3] 2 = true ↔
      ((v1 = v2 ∨ v1 = v3 ∨ v2 = v3) ∧ ¬(v1 = v2 ∧ v2 = v3)) := by
  unfold hasCountVal
  by_cases h12 : v1 = v2 <;> by_cases h23 : v2 = v3 <;> by_cases h13 : v1 = v3 <;>
    simp_all [List.count_cons] <;> (try omega) <;> split_ifs <;> (try omega) <;> simp


/-- C4: for every list of three rank values, is_straight_3 returns
(true, maximum) exactly when the three values are distinct and span an
interval of length 2 (i.e. the sorted values each differ by 1), returns
(true, 3) when the value set is the wheel set Ace(14), 2, 3, and
returns (false, 0) for every other combination, in particular whenever a
rank value is duplicated. -/
theorem is_straight_3_correct (a b c : ℕ) :
    (is_straight_3 [a, b, c] = some (true, max a (max b c)) ↔
       a ≠ b ∧ a ≠ c ∧ b ≠ c ∧ max a (max b c) = min a (min b c) + 2)
    ∧ (({a, b, c} : Finset ℕ) = {14, 2, 3} → is_straight_3 [a, b, c] = some (true, 3))
    ∧ (¬(a ≠ b ∧ a ≠ c ∧ b ≠ c ∧ max a (max b c) = min a (min b c) + 2) →
        ({a, b, c} : Finset ℕ) ≠ {14, 2, 3} → is_straight_3 [a, b, c] = some (false, 0))
    ∧ ((a = b ∨ a = c ∨ b = c) → is_straight_3 [a, b, c] = some (false, 0)) := by
  have hW := finset_triple_eq_wheel_iff a b c
  rw [is_straight_3_eval]
  refine ⟨?_, ?_, ?_, ?_⟩
  · split_ifs with h1 h2
    · exact iff_of_true rfl (by omega)
    · refine iff_of_false (fun hcon => ?_) (by omega)
      simp only [Option.some.injEq, Prod.mk.injEq, true_and] at hcon
      omega
    · refine iff_of_false (fun hcon => ?_) (by omega)
      simp only [Option.some.injEq, Prod.mk.injEq] at hcon
      exact absurd hcon.1 (by decide)
  · intro hw
    rw [hW] at hw
    rw [if_neg (by omega), if_pos (by omega)]
  · intro hnr hnw
    rw [if_neg (by omega)]
    exact if_neg (fun hx => hnw (hW.mpr (by omega)))
  · intro hdup
    rw [if_neg (by omega), if_neg (by omega)]

theorem is_straight_3_correct_witness :
    is_straight_3 [2, 3, 4] = some (true, 4) ∧
    is_straight_3 [14, 2, 3] = some (true, 3) ∧
    is_straight_3 [2, 9, 14] = some (false, 0) ∧
    is_straight_3 [5, 5, 6] = some (false, 0) :=
  ⟨(is_straight_3_correct 2 3 4).1.mpr (by decide),
   (is_straight_3_correct 14 2 3).2.1 (by decide),
   (is_straight_3_correct 2 9 14).2.2.1 (by decide) (by decide),
   (is_straight_3_correct 5 5 6).2.2.2 (by decide)⟩


/-- C2: for every 3-card hand of parseable card tokens, hand_category
returns the category decided by the first matching rule in the priority
order straight flush (5), three of a kind (4), straight (3), flush (2),
pair (1), high card (0); consequently its result is always at most 5. -/
theorem hand_category_correct (c1 c2 t : Token) (v1 v2 v3 : ℕ) (s1 s2 s3 : Char)
    (str : Bool) (hi : ℕ)
    (h1 : parse_card c1 = some (v1, s1)) (h2 : parse_card c2 = some (v2, s2))
    (h3 : parse_card t = some (v3, s3))
    (hst : is_straight_3 [v1, v2, v3] = some (str, hi)) :
    hand_category [c1, c2] t =
      some (if str = true ∧ s1 = s2 ∧ s2 = s3 then 5
            else if v1 = v2 ∧ v2 = v3 then 4
            else if str = true then 3
            else if s1 = s2 ∧ s2 = s3 then 2
            else if (v1 = v2 ∨ v1 = v3 ∨ v2 = v3) ∧ ¬(v1 = v2 ∧ v2 = v3) then 1
            else 0)
    ∧ (∀ n, hand_category [c1, c2] t = some n → n ≤ 5) := by
  have he := hand_category_eval c1 c2 t v1 v2 v3 s1 s2 s3 str hi h1 h2 h3 hst
  have hcat : hand_category [c1, c2] t =
      some (if str = true ∧ s1 = s2 ∧ s2 = s3 then 5
            else if v1 = v2 ∧ v2 = v3 then 4
            else if str = true then 3
            else if s1 = s2 ∧ s2 = s3 then 2
            else if (v1 = v2 ∨ v1 = v3 ∨ v2 = v3) ∧ ¬(v1 = v2 ∧ v2 = v3) then 1
            else 0) := by
    rw [he]
    simp only [Bool.and_eq_true, beq_iff_eq, toFinset_card_one_iff, hasCountVal_three_iff,
      hasCountVal_two_iff]
  refine ⟨hcat, fun n hn => ?_⟩
  rw [hcat] at hn
  simp only [Option.some.injEq] at hn
  split_ifs at hn <;> omega

theorem hand_category_correct_witness :
    hand_category [['A', 'H'], ['A', 'D']] ['A', 'S'] = some 4 := by
  have h := hand_category_correct ['A', 'H'] ['A', 'D'] ['A', 'S'] 14 14 14 'H' 'D' 'S'
    false 0 (by decide) (by decide) (by decide) (by decide)
  rw [h.1]
  norm_num


lemma seqCompare_antisymm : ∀ l1 l2 : List ℕ, seqCompare l2 l1 = 1 - seqCompare l1 l2 := by
  intro l1
  induction l1 with
  | nil => intro l2; cases l2 <;> simp [seqCompare] <;> norm_num
  | cons m ms ih =>
    intro l2
    cases l2 with
    | nil => simp [seqCompare]; norm_num
    | cons o os =>
      simp only [seqCompare]
      split_ifs with h1 h2
      · exfalso; omega
      · norm_num
      · norm_num
      · exact ih os

lemma seqCompare_eq_half_iff :
    ∀ l1 l2 : List ℕ, l1.length = l2.length → (seqCompare l1 l2 = 1/2 ↔ l1 = l2) := by
  intro l1
  induction l1 with
  | nil =>
    intro l2 h
    cases l2 with
    | nil => simp [seqCompare]
    | cons o os => simp at h
  | cons m ms ih =>
    intro l2 h
    cases l2 with
    | nil => simp at h
    | cons o os =>
      simp only [List.length_cons] at h
      have h' : ms.length = os.length := by omega
      simp only [seqCompare]
      split_ifs with h1 h2
      · refine iff_of_false (by norm_num) (fun hcon => ?_)
        simp only [List.cons.injEq] at hcon
        omega
      · refine iff_of_false (by norm_num) (fun hcon => ?_)
        simp only [List.cons.injEq] at hcon
        omega
      · have hmo : m = o := by omega
        subst hmo
        rw [ih os h']
        simp

lemma compare_spec_antisymm (ca cb : ℕ) (v w : List ℕ) :
    compare_spec cb ca w v = 1 - compare_spec ca cb v w := by
  unfold compare_spec
  by_cases h1 : ca > cb
  · rw [if_neg (by omega), if_pos h1, if_pos h1]
    norm_num
  · by_cases h2 : cb > ca
    · rw [if_pos h2, if_neg h1, if_pos h2]
      norm_num
    · have hq : cb = ca := by omega
      subst hq
      rw [if_neg h2, if_neg h1, if_neg h1, if_neg h2]
      exact seqCompare_antisymm _ _

lemma tie_break_seq_length_three (cat : ℕ) (v1 v2 v3 : ℕ) :
    (tie_break_seq cat [v1, v2, v3]).length = 3 := by
  simp only [tie_break_seq]
  split_ifs
  · rfl
  · rw [List.length_insertionSort]
    rfl

lemma hand_category_isSome (c1 c2 t : Token) (v1 v2 v3 : ℕ) (s1 s2 s3 : Char)
    (h1 : parse_card c1 = some (v1, s1)) (h2 : parse_card c2 = some (v2, s2))
    (h3 : parse_card t = some (v3, s3)) :
    ∃ n, hand_category [c1, c2] t = some n := by
  obtain ⟨p, hp⟩ : ∃ p, is_straight_3 [v1, v2, v3] = some p := by
    rw [is_straight_3_eval]
    split_ifs <;> exact ⟨_, rfl⟩
  exact ⟨_, hand_category_eval c1 c2 t v1 v2 v3 s1 s2 s3 p.1 p.2 h1 h2 h3 (by rw [hp])⟩

lemma compare_hands_eval (a1 a2 b1 b2 t : Token) (va1 va2 vb1 vb2 vt : ℕ)
    (sa1 sa2 sb1 sb2 st3 : Char) (ca cb : ℕ)
    (ha1 : parse_card a1 = some (va1, sa1)) (ha2 : parse_card a2 = some (va2, sa2))
    (hb1 : parse_card b1 = some (vb1, sb1)) (hb2 : parse_card b2 = some (vb2, sb2))
    (ht : parse_card t = some (vt, st3))
    (hca : hand_category [a1, a2] t = some ca) (hcb : hand_category [b1, b2] t = some cb) :
    compare_hands_internal [a1, a2] t [b1, b2] =
      some (compare_spec ca cb [va1, va2, vt] [vb1, vb2, vt]) := by
  unfold compare_hands_internal compare_spec tie_break_seq
  simp only [hca, hcb, Option.bind_eq_bind, Option.some_bind, List.cons_append,
    List.nil_append, List.mapM_cons, List.mapM_nil, ha1, ha2, hb1, hb2, ht, Option.pure_def,
    List.map_cons, List.map_nil]
  split_ifs <;> rfl


/-- C3: for parseable 2-card holes A, B and table card t,
compare_hands_internal returns 1.0 when the category of A exceeds the
category of B and 0.0 when the category of B exceeds that of A; on equal categories it compares the descending
tie-break sequences (with the wheel remapped to [3, 2, 1] when the
shared category is 5 or 3) element by element, the first difference
deciding, and returns 0.5 exactly when the sequences agree at all three
positions. -/
theorem compare_hands_follows_spec (a1 a2 b1 b2 t : Token) (va1 va2 vb1 vb2 vt : ℕ)
    (sa1 sa2 sb1 sb2 st3 : Char) (ca cb : ℕ)
    (ha1 : parse_card a1 = some (va1, sa1)) (ha2 : parse_card a2 = some (va2, sa2))
    (hb1 : parse_card b1 = some (vb1, sb1)) (hb2 : parse_card b2 = some (vb2, sb2))
    (ht : parse_card t = some (vt, st3))
    (hca : hand_category [a1, a2] t = some ca) (hcb : hand_category [b1, b2] t = some cb) :
    (compare_hands_internal [a1, a2] t [b1, b2] =
       some (compare_spec ca cb [va1, va2, vt] [vb1, vb2, vt]))
    ∧ (ca > cb → compare_hands_internal [a1, a2] t [b1, b2] = some 1)
    ∧ (cb > ca → compare_hands_internal [a1, a2] t [b1, b2] = some 0)
    ∧ (ca = cb →
        (compare_spec ca cb [va1, va2, vt] [vb1, vb2, vt] = 1/2 ↔
          tie_break_seq ca [va1, va2, vt] = tie_break_seq ca [vb1, vb2, vt])) := by
  have he := compare_hands_eval a1 a2 b1 b2 t va1 va2 vb1 vb2 vt sa1 sa2 sb1 sb2 st3 ca cb
    ha1 ha2 hb1 hb2 ht hca hcb
  refine ⟨he, fun hgt => ?_, fun hlt => ?_, fun heq => ?_⟩
  · rw [he]
    unfold compare_spec
    rw [if_pos hgt]
  · rw [he]
    unfold compare_spec
    rw [if_neg (by omega), if_pos hlt]
  · unfold compare_spec
    rw [if_neg (by omega), if_neg (by omega)]
    exact seqCompare_eq_half_iff _ _
      (by rw [tie_break_seq_length_three, tie_break_seq_length_three])

theorem compare_hands_follows_spec_witness :
    compare_hands_internal [['K', 'H'], ['Q', 'D']] ['2', 'S'] [['K', 'S'], ['Q', 'C']] =
      some (1/2 : ℚ) := by
  have h := compare_hands_follows_spec ['K', 'H'] ['Q', 'D'] ['K', 'S'] ['Q', 'C'] ['2', 'S']
    13 12 13 12 2 'H' 'D' 'S' 'C' 'S' 0 0
    (by decide) (by decide) (by decide) (by decide) (by decide) (by decide) (by decide)
  rw [h.1]
  rfl

/-- C7: for parseable holes A, B and table card t,
compare_hands_internal(A, t, B) and compare_hands_internal(B, t, A) both
succeed and sum to 1; in particular one equals 0.5 exactly when the
other does. -/
theorem compare_hands_antisymmetric (a1 a2 b1 b2 t : Token) (va1 va2 vb1 vb2 vt : ℕ)
    (sa1 sa2 sb1 sb2 st3 : Char)
    (ha1 : parse_card a1 = some (va1, sa1)) (ha2 : parse_card a2 = some (va2, sa2))
    (hb1 : parse_card b1 = some (vb1, sb1)) (hb2 : parse_card b2 = some (vb2, sb2))
    (ht : parse_card t = some (vt, st3)) :
    (∃ r : ℚ, compare_hands_internal [a1, a2] t [b1, b2] = some r ∧
       compare_hands_internal [b1, b2] t [a1, a2] = some (1 - r))
    ∧ (compare_hands_internal [a1, a2] t [b1, b2] = some (1/2 : ℚ) ↔
       compare_hands_internal [b1, b2] t [a1, a2] = some (1/2 : ℚ)) := by
  obtain ⟨ca, hca⟩ := hand_category_isSome a1 a2 t va1 va2 vt sa1 sa2 st3 ha1 ha2 ht
  obtain ⟨cb, hcb⟩ := hand_category_isSome b1 b2 t vb1 vb2 vt sb1 sb2 st3 hb1 hb2 ht
  have hAB := compare_hands_eval a1 a2 b1 b2 t va1 va2 vb1 vb2 vt sa1 sa2 sb1 sb2 st3 ca cb
    ha1 ha2 hb1 hb2 ht hca hcb
  have hBA := compare_hands_eval b1 b2 a1 a2 t vb1 vb2 va1 va2 vt sb1 sb2 sa1 sa2 st3 cb ca
    hb1 hb2 ha1 ha2 ht hcb hca
  have hanti := compare_spec_antisymm ca cb [va1, va2, vt] [vb1, vb2, vt]
  constructor
  · exact ⟨_, hAB, by rw [hBA, hanti]⟩
  · rw [hAB, hBA, hanti]
    simp only [Option.some.injEq]
    constructor <;> intro h <;> linarith

theorem compare_hands_antisymmetric_witness :
    (compare_hands_internal [['3', 'H'], ['4', 'D']] ['9', 'S'] [['3', 'D'], ['4', 'H']] =
       some (1/2 : ℚ)) ↔
    (compare_hands_internal [['3', 'D'], ['4', 'H']] ['9', 'S'] [['3', 'H'], ['4', 'D']] =
       some (1/2 : ℚ)) :=
  (compare_hands_antisymmetric ['3', 'H'] ['4', 'D'] ['3', 'D'] ['4', 'H'] ['9', 'S']
    3 4 3 4 9 'H' 'D' 'D' 'H' 'S'
    (by decide) (by decide) (by decide) (by decide) (by decide)).2


lemma decide_action_eval (s : GameState) (samples : List (List Token)) (results : List ℚ)
    (hh : s.your_hole ≠ []) (ht : s.table_card ≠ [])
    (hres : samples.mapM
        (fun opp_hand => compare_hands_internal s.your_hole s.table_card opp_hand) =
      some results) :
    decide_action s samples =
      (if results.sum / 800 < 35/100 then "FOLD"
       else
         let n_fold := s.opponent_stats.fold
         let n_actions := n_fold + s.opponent_stats.call + s.opponent_stats.raise
         let fold_freq : ℚ :=
           if n_actions > 5 then max (5/100) (min (95/100) ((n_fold : ℚ) / (n_actions : ℚ)))
           else 30/100
         let equity : ℚ := results.sum / 800
         let ev_call := fold_freq * 2 + (1 - fold_freq) * (equity * 2 + (1 - equity) * (-2))
         let ev_raise := fold_freq * 3 + (1 - fold_freq) * (equity * 3 + (1 - equity) * (-3))
         if ev_raise > ev_call + 1/10 ∧ ev_raise > -1 then "RAISE"
         else if ev_call > -1 + 1/10 then "CALL"
         else "FOLD") := by
  unfold decide_action
  rw [if_neg (by simp [hh, ht])]
  rw [hres]


/-- C8: an empty hole list or an empty table card makes decide_action
return FOLD immediately, for every choice of the remaining fields and of
the sampling outcomes. -/
theorem decide_action_empty_input (s : GameState) (samples : List (List Token))
    (h : s.your_hole = [] ∨ s.table_card = []) :
    decide_action s samples = "FOLD" := by
  unfold decide_action
  rw [if_pos h]

theorem decide_action_empty_input_witness :
    decide_action ⟨[], ['K', 'S'], ⟨0, 0, 0⟩, 1001⟩ [] = "FOLD" :=
  decide_action_empty_input _ _ (Or.inl rfl)

/-- C10: two states that differ only in total_rounds produce the same
action under the same sampling outcomes. -/
theorem decide_action_ignores_total_rounds (s : GameState) (n m : ℤ)
    (samples : List (List Token)) :
    decide_action { s with total_rounds := n } samples =
      decide_action { s with total_rounds := m } samples := rfl

/-- C6: decide_action always produces one of the three legal action
strings (faults are absorbed into FOLD), and the I/O layer coerces any
value outside this set to CALL, so the program output is always legal. -/
theorem decide_action_always_legal (s : GameState) (samples : List (List Token)) :
    (decide_action s samples = "FOLD" ∨ decide_action s samples = "CALL" ∨
       decide_action s samples = "RAISE")
    ∧ (main_action s samples = "FOLD" ∨ main_action s samples = "CALL" ∨
       main_action s samples = "RAISE")
    ∧ (∀ a : String, ¬(a = "FOLD" ∨ a = "CALL" ∨ a = "RAISE") → coerce_action a = "CALL") := by
  have hd : decide_action s samples = "FOLD" ∨ decide_action s samples = "CALL" ∨
      decide_action s samples = "RAISE" := by
    simp only [decide_action]
    split
    · exact Or.inl rfl
    · split
      · exact Or.inl rfl
      · split_ifs <;> simp
  refine ⟨hd, ?_, fun a ha => ?_⟩
  · unfold main_action coerce_action
    rw [if_pos hd]
    exact hd
  · unfold coerce_action
    rw [if_neg ha]

theorem decide_action_always_legal_witness : coerce_action ("X") = "CALL" :=
  (decide_action_always_legal ⟨[], [], ⟨0, 0, 0⟩, 1001⟩ []).2.2 ("X") (by decide)

/-- C5: when the Monte Carlo equity is strictly below 0.35, decide_action
returns FOLD, and it does so for every value of the opponent statistics. -/
theorem decide_action_trash_filter (s : GameState) (samples : List (List Token))
    (results : List ℚ) (hh : s.your_hole ≠ []) (ht : s.table_card ≠ [])
    (hres : samples.mapM
        (fun opp_hand => compare_hands_internal s.your_hole s.table_card opp_hand) =
      some results)
    (he : results.sum / 800 < 35/100) :
    decide_action s samples = "FOLD"
    ∧ ∀ stats : OppStats, decide_action { s with opponent_stats := stats } samples = "FOLD" := by
  constructor
  · rw [decide_action_eval s samples results hh ht hres, if_pos he]
  · intro stats
    rw [decide_action_eval { s with opponent_stats := stats } samples results hh ht hres,
      if_pos he]

theorem decide_action_trash_filter_witness :
    decide_action ⟨[['2', 'H'], ['7', 'D']], ['K', 'S'], ⟨0, 0, 0⟩, 1001⟩ [] = "FOLD" :=
  (decide_action_trash_filter ⟨[['2', 'H'], ['7', 'D']], ['K', 'S'], ⟨0, 0, 0⟩, 1001⟩ [] []
    (by decide) (by decide) rfl (by norm_num)).1


lemma fold_freq_bounds (nf nc nr : ℕ) :
    5/100 ≤ (if nf + nc + nr > 5 then
               max (5/100) (min (95/100) ((nf : ℚ) / ((nf + nc + nr : ℕ) : ℚ)))
             else (30/100 : ℚ))
    ∧ (if nf + nc + nr > 5 then
         max (5/100) (min (95/100) ((nf : ℚ) / ((nf + nc + nr : ℕ) : ℚ)))
       else (30/100 : ℚ)) ≤ 95/100 := by
  split_ifs
  · exact ⟨le_max_left _ _, max_le (by norm_num) (min_le_left _ _)⟩
  · norm_num

lemma ev_call_lower_bound (e f : ℚ) (he : 35/100 ≤ e) (hf1 : 5/100 ≤ f)
    (hf2 : f ≤ 95/100) :
    -47/100 ≤ f * 2 + (1 - f) * (e * 2 + (1 - e) * (-2)) := by
  nlinarith [mul_nonneg (by linarith : (0:ℚ) ≤ 1 - f)
    (by linarith : (0:ℚ) ≤ e * 2 + (1 - e) * (-2) + 3/5)]

/-- C1: with non-empty inputs and equity at least 0.35, decide_action
follows the documented fold-frequency estimate and expected-value rule
(RAISE when ev_raise clears ev_call by the 0.10 margin and beats
ev_fold, else CALL when ev_call clears ev_fold by 0.10, else FOLD); in
particular equity 1.0 with at most 5 observed opponent actions (default
fold_freq 0.30) yields RAISE. -/
theorem decide_action_ev_rule (s : GameState) (samples : List (List Token)) (results : List ℚ)
    (hh : s.your_hole ≠ []) (ht : s.table_card ≠ [])
    (hres : samples.mapM
        (fun opp_hand => compare_hands_internal s.your_hole s.table_card opp_hand) =
      some results)
    (he : 35/100 ≤ results.sum / 800) :
    (decide_action s samples =
       (let equity : ℚ := results.sum / 800
        let n_fold := s.opponent_stats.fold
        let n_actions := n_fold + s.opponent_stats.call + s.opponent_stats.raise
        let fold_freq : ℚ :=
          if n_actions > 5 then max (5/100) (min (95/100) ((n_fold : ℚ) / (n_actions : ℚ)))
          else 30/100
        let ev_fold : ℚ := -1
        let ev_call := fold_freq * 2 + (1 - fold_freq) * (equity * 2 + (1 - equity) * (-2))
        let ev_raise := fold_freq * 3 + (1 - fold_freq) * (equity * 3 + (1 - equity) * (-3))
        if ev_raise > ev_call + 1/10 ∧ ev_raise > ev_fold then "RAISE"
        else if ev_call > ev_fold + 1/10 then "CALL"
        else "FOLD"))
    ∧ (results.sum / 800 = 1 →
        s.opponent_stats.fold + s.opponent_stats.call + s.opponent_stats.raise ≤ 5 →
        decide_action s samples = "RAISE") := by
  have hmain := decide_action_eval s samples results hh ht hres
  rw [if_neg (not_lt.mpr he)] at hmain
  refine ⟨hmain, fun h1 h5 => ?_⟩
  rw [hmain]
  simp only [h1]
  rw [if_neg (by omega : ¬ s.opponent_stats.fold + s.opponent_stats.call +
    s.opponent_stats.raise > 5)]
  norm_num

/-- C9: with non-empty inputs and equity at least 0.35, ev_call is at
least -0.47, hence always clears ev_fold + 0.10 = -0.9, so the final
FOLD fallback is unreachable and the action is CALL or RAISE. -/
theorem decide_action_no_fold_above_threshold (s : GameState) (samples : List (List Token))
    (results : List ℚ)
    (hh : s.your_hole ≠ []) (ht : s.table_card ≠ [])
    (hres : samples.mapM
        (fun opp_hand => compare_hands_internal s.your_hole s.table_card opp_hand) =
      some results)
    (he : 35/100 ≤ results.sum / 800) :
    (-47/100 ≤
       (let equity : ℚ := results.sum / 800
        let n_fold := s.opponent_stats.fold
        let n_actions := n_fold + s.opponent_stats.call + s.opponent_stats.raise
        let fold_freq : ℚ :=
          if n_actions > 5 then max (5/100) (min (95/100) ((n_fold : ℚ) / (n_actions : ℚ)))
          else 30/100
        fold_freq * 2 + (1 - fold_freq) * (equity * 2 + (1 - equity) * (-2))))
    ∧ (decide_action s samples = "CALL" ∨ decide_action s samples = "RAISE") := by
  have hb := fold_freq_bounds s.opponent_stats.fold s.opponent_stats.call s.opponent_stats.raise
  have hev := ev_call_lower_bound (results.sum / 800) _ he hb.1 hb.2
  refine ⟨hev, ?_⟩
  rw [decide_action_eval s samples results hh ht hres, if_neg (not_lt.mpr he)]
  simp only []
  split_ifs with h1 h2 h3 h4 h5
  · right; rfl
  · left; rfl
  · exfalso
    have hev2 := ev_call_lower_bound (results.sum / 800)
      (max (5/100) (min (95/100) ((s.opponent_stats.fold : ℚ) /
        ((s.opponent_stats.fold + s.opponent_stats.call + s.opponent_stats.raise : ℕ) : ℚ))))
      he (le_max_left _ _) (max_le (by norm_num) (min_le_left _ _))
    exact h3 (by linarith [hev2])
  · right; rfl
  · left; rfl
  · exfalso
    have hev2 := ev_call_lower_bound (results.sum / 800) (30/100) he (by norm_num) (by norm_num)
    exact h5 (by linarith [hev2])


set_option maxRecDepth 40000 in
theorem decide_action_ev_rule_witness :
    decide_action ⟨[['A', 'H'], ['A', 'D']], ['A', 'S'], ⟨0, 0, 0⟩, 1001⟩
      (List.replicate 280 [['2', 'H'], ['7', 'D']]) = "CALL" := by
  have h := decide_action_ev_rule
    ⟨[['A', 'H'], ['A', 'D']], ['A', 'S'], ⟨0, 0, 0⟩, 1001⟩
    (List.replicate 280 [['2', 'H'], ['7', 'D']])
    (List.replicate 280 (1 : ℚ))
    (by decide) (by decide) (by rfl)
    (by norm_num [List.sum_replicate])
  rw [h.1]
  norm_num [List.sum_replicate]

set_option maxRecDepth 40000 in
theorem decide_action_no_fold_above_threshold_witness :
    decide_action ⟨[['A', 'H'], ['A', 'D']], ['A', 'S'], ⟨0, 0, 0⟩, 1001⟩
        (List.replicate 560 [['2', 'H'], ['7', 'D']]) = "CALL" ∨
      decide_action ⟨[['A', 'H'], ['A', 'D']], ['A', 'S'], ⟨0, 0, 0⟩, 1001⟩
        (List.replicate 560 [['2', 'H'], ['7', 'D']]) = "RAISE" :=
  (decide_action_no_fold_above_threshold
    ⟨[['A', 'H'], ['A', 'D']], ['A', 'S'], ⟨0, 0, 0⟩, 1001⟩
    (List.replicate 560 [['2', 'H'], ['7', 'D']])
    (List.replicate 560 (1 : ℚ))
    (by decide) (by decide) (by rfl)
    (by norm_num [List.sum_replicate])).2

end Poker
